import Mathlib

/-!
Shallow embedding of the KB Reflex investment-psychology classifier:
the inference wrapper `SentimentPredictor` (src/predictor.py) and the
training-side preprocessing and artifact persistence
(src/train_emotion_model.py).

Modelling conventions:
* Python floats are idealised as rationals (ℚ); `torch.exp` inside
  `F.softmax` is kept abstract as a predictor-supplied function
  `exp : ℚ → ℚ`, assumed positive in theorems (as the real exponential is).
* Python dicts are association lists in insertion order; a dict
  comprehension that meets a duplicate key keeps the first key position
  and the last value, which `dictInsert` reproduces.
* Exceptions are `Except String`; the tokenizer + model forward pass of
  `predict` is a field `forward : String → Except String (List ℚ)`
  producing the logits row (or raising), since its weights are opaque data.
* The `model_info.json` file on disk is `Option SavedModelInfo`
  (`none` = file absent, giving Python's `FileNotFoundError` branch).
-/

namespace KBReflex

/-- Python dict lookup `d[k]` on an association list (first binding wins;
an actual dict has unique keys). `none` models a raised `KeyError`. -/
def alookup {α β : Type} [DecidableEq α] : List (α × β) → α → Option β
  | [], _ => none
  | (a, b) :: t, k => if a = k then some b else alookup t k

/-- Python dict insertion `d[k] = v` semantics for building a dict in
order: an existing key keeps its position but takes the new value,
a fresh key is appended. -/
def dictInsert {α β : Type} [DecidableEq α] : List (α × β) → α → β → List (α × β)
  | [], k, v => [(k, v)]
  | (a, b) :: t, k, v => if a = k then (a, v) :: t else (a, b) :: dictInsert t k v

/-- The result dictionary returned by `SentimentPredictor.predict`
(src/predictor.py lines 110-171). -/
structure PredictionResult where
  pattern : String
  confidence : ℚ
  confidence_level : String
  description : String
  all_probabilities : List (String × ℚ)
deriving Repr, DecidableEq

/-- `self.pattern_descriptions` from `_define_pattern_descriptions`
(src/predictor.py lines 68-78). -/
def pattern_descriptions : List (String × String) :=
  [("공포", "시장 하락이나 손실에 대한 두려움으로 인한 급작스러운 매도 행동입니다. 감정적 결정으로 이어질 수 있어 주의가 필요합니다."),
   ("추격매수", "주가 상승을 보고 기회를 놓칠까 두려워 서둘러 매수하는 FOMO(Fear of Missing Out) 심리입니다."),
   ("과신", "과거의 성공 경험을 바탕으로 과도한 자신감을 보이는 패턴입니다. 위험 관리에 소홀해질 수 있습니다."),
   ("손실회피", "손실을 확정하기 싫어하여 손절을 지연시키거나 피하려는 심리입니다."),
   ("확증편향", "자신의 판단을 뒷받침하는 정보만 선택적으로 수집하려는 경향입니다."),
   ("군중심리", "다른 투자자들의 행동을 따라하려는 경향으로, 독립적 사고가 부족할 때 나타납니다."),
   ("냉정", "감정에 휘둘리지 않고 합리적으로 투자 결정을 내리는 이상적인 상태입니다.")]

/-- `_get_pattern_description` (src/predictor.py lines 80-82):
`self.pattern_descriptions.get(pattern, '분석된 투자 심리 패턴입니다.')`. -/
def get_pattern_description (pattern : String) : String :=
  (alookup pattern_descriptions pattern).getD "분석된 투자 심리 패턴입니다."

/-- `_get_confidence_level` (src/predictor.py lines 84-93). -/
def get_confidence_level (confidence : ℚ) : String :=
  if confidence ≥ 9/10 then "매우 높음"
  else if confidence ≥ 7/10 then "높음"
  else if confidence ≥ 1/2 then "보통"
  else "낮음"

/-- Python `round(x, 3)` (src/predictor.py line 155), idealised as exact
rounding of a rational to 3 decimal places (the binary-float tie-breaking
of CPython is not observable by any claim). -/
def round3 (q : ℚ) : ℚ := (round (q * 1000) : ℤ) / 1000

/-- `F.softmax(logits, dim=-1)` (src/predictor.py line 138) over the
abstract exponential `e`. -/
def softmax (e : ℚ → ℚ) (logits : List ℚ) : List ℚ :=
  let es := logits.map e
  es.map (fun x => x / es.sum)

/-- Tail of `np.argmax`: scan the remaining entries, index `i` next,
keeping the best (index, value) so far; a strictly greater value wins,
so the first maximum is kept, as numpy does. -/
def argmaxAux : List ℚ → Nat → Nat × ℚ → Nat × ℚ
  | [], _, best => best
  | x :: xs, i, best => argmaxAux xs (i + 1) (if best.2 < x then (i, x) else best)

/-- `np.argmax(probabilities)` (src/predictor.py line 142): index of the
first maximal entry. Empty input never reaches this in `predict`
(`np.argmax` of an empty array raises, modelled in `predictCore`). -/
def argmaxIdx : List ℚ → Nat
  | [] => 0
  | x :: xs => (argmaxAux xs 1 (0, x)).1

/-- The state of a loaded `SentimentPredictor` (src/predictor.py
lines 25-66): label maps and metadata from `model_info.json`, plus the
opaque tokenizer+model forward pass and the exponential used by softmax. -/
structure Predictor where
  model_path : String
  device : String
  id_to_label : List (Nat × String)
  label_to_id : List (String × Nat)
  num_labels : Nat
  forward : String → Except String (List ℚ)
  exp : ℚ → ℚ

/-- Python's emptiness guard `not text or not text.strip()`
(src/predictor.py line 110) and the `str.strip() != ''` filters of
src/train_emotion_model.py lines 168-169: a string strips to the empty
string exactly when every character is whitespace (and the empty string
is vacuously so), so the guard is "all characters are whitespace". -/
def isBlank (text : String) : Bool := text.data.all (·.isWhitespace)

/-- The sentinel result for empty / whitespace-only input
(src/predictor.py lines 110-117). -/
def sentinelResult : PredictionResult :=
  { pattern := "분석불가"
    confidence := 0
    confidence_level := "없음"
    description := "분석할 텍스트가 없습니다."
    all_probabilities := [] }

/-- The error result built in the `except` branch of `predict`
(src/predictor.py lines 163-171), embedding the exception message. -/
def errorResult (msg : String) : PredictionResult :=
  { pattern := "오류"
    confidence := 0
    confidence_level := "없음"
    description := "분석 중 오류가 발생했습니다: " ++ msg
    all_probabilities := [] }

/-- The dict comprehension of src/predictor.py lines 147-150:
`{self.id_to_label[i]: float(prob) for i, prob in enumerate(probabilities)}`.
Evaluated left to right; a missing id raises `KeyError` (whose `str` is
the key), which aborts the comprehension. -/
def buildAllProbs (i2l : List (Nat × String)) (probs : List ℚ) :
    Except String (List (String × ℚ)) :=
  probs.enum.foldlM
    (fun acc p =>
      match alookup i2l p.1 with
      | some lab => .ok (dictInsert acc lab p.2)
      | none => .error (toString p.1))
    []

/-- The label the mapping assigns to class index `i` (defaulting to `""`
when the index is absent; lookups in theorems always require presence). -/
def labelAt (i2l : List (Nat × String)) (i : Nat) : String :=
  (alookup i2l i).getD ""

/-- The `try` block of `predict` (src/predictor.py lines 119-161):
tokenize + forward (may raise), softmax, argmax (raises on an empty
probability row), label lookups (may raise `KeyError`), and assembly of
the result dictionary. -/
def predictCore (P : Predictor) (text : String) : Except String PredictionResult := do
  let logits ← P.forward text
  let probs := softmax P.exp logits
  if probs = [] then
    throw "attempt to get argmax of an empty sequence"
  let cid := argmaxIdx probs
  let pattern ←
    match alookup P.id_to_label cid with
    | some p => Except.ok p
    | none => Except.error (toString cid)
  let conf := probs.getD cid 0
  let allP ← buildAllProbs P.id_to_label probs
  return { pattern := pattern
           confidence := round3 conf
           confidence_level := get_confidence_level conf
           description := get_pattern_description pattern
           all_probabilities := allP }

/-- `SentimentPredictor.predict` (src/predictor.py lines 95-171).
`not text or not text.strip()` is `isBlank text`; otherwise the `try` block runs and any exception
is converted into the error result. Total: it never raises. -/
def predict (P : Predictor) (text : String) : PredictionResult :=
  if isBlank text then sentinelResult
  else
    match predictCore P text with
    | .ok r => r
    | .error e => errorResult e

/-- `SentimentPredictor.predict_batch` (src/predictor.py lines 173-187):
a loop appending `self.predict(text)` for each text in order. -/
def predict_batch (P : Predictor) (texts : List String) : List PredictionResult :=
  texts.map (predict P)

/-- The dictionary returned by `get_model_info` (src/predictor.py
lines 189-203). -/
structure ModelInfoReport where
  model_path : String
  device : String
  num_labels : Nat
  label_to_id : List (String × Nat)
  id_to_label : List (Nat × String)
  available_patterns : List String
deriving Repr, DecidableEq

/-- `SentimentPredictor.get_model_info` (src/predictor.py lines 189-203). -/
def get_model_info (P : Predictor) : ModelInfoReport :=
  { model_path := P.model_path
    device := P.device
    num_labels := P.num_labels
    label_to_id := P.label_to_id
    id_to_label := P.id_to_label
    available_patterns := pattern_descriptions.map Prod.fst }

/-! ### Training side: src/train_emotion_model.py -/

/-- One row of the combined trades DataFrame, restricted to the two
columns `preprocess_data` uses; `none` is a pandas missing value (NaN). -/
structure RawRecord where
  memo : Option String
  tag : Option String
deriving Repr, DecidableEq

/-- The tag normalisation of src/train_emotion_model.py line 173:
`df['감정태그'].str.replace('#', '', regex=False)`. Replacing a
single-character pattern by the empty string removes every occurrence of
that character; Python strings are code-point sequences, so this is a
filter over the characters. -/
def normalizeTag (t : String) : String := ⟨t.data.filter (fun c => c ≠ '#')⟩

/-- Rows surviving the drops of `preprocess_data`
(src/train_emotion_model.py lines 162-170): `dropna` on the two columns,
then rows whose text or tag is empty after strip are removed.
Tags are still raw here (the `#` removal happens after the drops). -/
def keptRows (rows : List RawRecord) : List (String × String) :=
  rows.filterMap fun r =>
    match r.memo, r.tag with
    | some m, some t => if ¬ isBlank m ∧ ¬ isBlank t then some (m, t) else none
    | _, _ => none

/-- The preprocessed records: surviving rows with normalised tags
(src/train_emotion_model.py line 173). -/
def preprocessedRows (rows : List RawRecord) : List (String × String) :=
  (keptRows rows).map fun mt => (mt.1, normalizeTag mt.2)

/-- Python string comparison `a <= b` on the underlying code-point
sequences: lexicographic, by the character code points. This is the order
`LabelEncoder` (via `np.unique`) sorts by. -/
def charListLe : List Char → List Char → Bool
  | [], _ => true
  | _ :: _, [] => false
  | a :: as, b :: bs => if a = b then charListLe as bs else decide (a < b)

/-- Python `a <= b` on strings. -/
def strLe (a b : String) : Bool := charListLe a.data b.data

/-- `LabelEncoder().fit(...).classes_` (src/train_emotion_model.py
lines 176-177): the sorted distinct normalised tags (`np.unique` of the
tag column). -/
def classes (rows : List RawRecord) : List String :=
  (((preprocessedRows rows).map Prod.snd).dedup).insertionSort
    (fun a b => strLe a b = true)

/-- `label_to_id = {label: idx for idx, label in enumerate(label_encoder.classes_)}`
(src/train_emotion_model.py line 180). -/
def label_to_id (rows : List RawRecord) : List (String × Nat) :=
  (classes rows).enum.map fun p => (p.2, p.1)

/-- `id_to_label = {idx: label for label, idx in label_to_id.items()}`
(src/train_emotion_model.py line 181). -/
def id_to_label (rows : List RawRecord) : List (Nat × String) :=
  (classes rows).enum

/-- The `model_info` record `save_model_info` writes to
`model_info.json` (src/train_emotion_model.py lines 227-240); the
`id_to_label` keys are serialised as strings (`str(k)`). -/
structure SavedModelInfo where
  label_to_id : List (String × Nat)
  id_to_label : List (String × String)
  num_labels : Nat
  model_type : String
deriving Repr, DecidableEq

/-- `save_model_info` (src/train_emotion_model.py lines 227-240). -/
def save_model_info (l2i : List (String × Nat)) (i2l : List (Nat × String)) :
    SavedModelInfo :=
  { label_to_id := l2i
    id_to_label := i2l.map fun p => (toString p.1, p.2)
    num_labels := l2i.length
    model_type := "BERT-based emotion classifier for investment psychology" }

/-- The three fields `_load_model_info` stores on the predictor
(src/predictor.py lines 53-66). -/
structure LoadedInfo where
  id_to_label : List (Nat × String)
  label_to_id : List (String × Nat)
  num_labels : Nat
deriving Repr, DecidableEq

/-- `SentimentPredictor._load_model_info` (src/predictor.py lines 53-66):
raises `FileNotFoundError` when `model_info.json` is absent, otherwise
parses it and converts the `id_to_label` keys back to integers with
`int(k)` (which raises on a non-numeric key). No further validation is
performed. -/
def load_model_info (file : Option SavedModelInfo) : Except String LoadedInfo :=
  match file with
  | none => .error "모델 정보 파일을 찾을 수 없습니다"
  | some info => do
    let i2l ← info.id_to_label.mapM fun p =>
      match p.1.toNat? with
      | some k => Except.ok (k, p.2)
      | none => Except.error ("invalid literal for int() with base 10: " ++ p.1)
    return { id_to_label := i2l
             label_to_id := info.label_to_id
             num_labels := info.num_labels }

/-- Assembling a `Predictor` from loaded metadata plus the opaque model
parts, as `SentimentPredictor.__init__` does (src/predictor.py
lines 25-51). -/
def mkPredictor (path device : String) (info : LoadedInfo)
    (forward : String → Except String (List ℚ)) (e : ℚ → ℚ) : Predictor :=
  { model_path := path
    device := device
    id_to_label := info.id_to_label
    label_to_id := info.label_to_id
    num_labels := info.num_labels
    forward := forward
    exp := e }

/-- Modelled from the spec (claim C7 refinement): the spec describes tag
normalisation as "removing a leading marker character"; this definition
follows those words, to be compared with `normalizeTag`, which embeds the
actual code (`str.replace('#', '')`). -/
def stripLeadingMarkerSpec (t : String) : String :=
  match t.data with
  | '#' :: rest => ⟨rest⟩
  | _ => t

/-! ### Concrete instances used by witnesses and counterexamples -/

/-- A healthy opaque model part: every input tokenizes and runs forward
to the logits row `[0, 1]`. -/
def demoForward : String → Except String (List ℚ) := fun _ => .ok [0, 1]

/-- A concrete everywhere-positive stand-in for the exponential. -/
def demoExp : ℚ → ℚ := fun q => q ^ 2 + 1

/-- A two-label predictor wired to `demoForward`. -/
def demoPredictor : Predictor :=
  { model_path := "./sentiment_model"
    device := "cpu"
    id_to_label := [(0, "공포"), (1, "과신")]
    label_to_id := [("공포", 0), ("과신", 1)]
    num_labels := 2
    forward := demoForward
    exp := demoExp }

/-- The same predictor whose forward pass always raises. -/
def failingPredictor : Predictor :=
  { demoPredictor with forward := fun _ => .error "RuntimeError: CUDA out of memory" }

/-- A deliberately inconsistent artifact: `num_labels` claims 3 classes
while both maps hold only 2 entries (the C6 scenario). -/
def mismatchedInfo : SavedModelInfo :=
  { label_to_id := [("공포", 0), ("과신", 1)]
    id_to_label := [(toString 0, "공포"), (toString 1, "과신")]
    num_labels := 3
    model_type := "BERT-based emotion classifier for investment psychology" }

/-- A training record whose tag carries an interior marker character. -/
def hashTagRow : RawRecord := { memo := some "메모", tag := some "공#포" }

/-- A small training corpus with three distinct normalised tags. -/
def demoTrainingRows : List RawRecord :=
  [{ memo := some "코스피가 무서워서 전량 매도", tag := some "#공포" },
   { memo := some "유튜버 추천으로 급히 매수", tag := some "추격매수" },
   { memo := some "이번에도 오를 것 같다", tag := some "과신" }]

/-! ## Theorems -/

/-- C1: for every string input, `predict` never raises (it is a total
function by construction); any failure in the `try` block — tokenization,
forward pass, or result assembly — is caught and converted into a
well-formed `PredictionResult` whose pattern is the error label `'오류'`,
whose confidence is `0.0`, and whose description embeds the exception
message. -/
theorem claim_C1_error_recovery (P : Predictor) (text e : String)
    (hb : isBlank text = false) (herr : predictCore P text = .error e) :
    predict P text = errorResult e ∧
    (predict P text).pattern = "오류" ∧
    (predict P text).confidence = 0 ∧
    (predict P text).description = "분석 중 오류가 발생했습니다: " ++ e := by
  have h1 : predict P text = errorResult e := by simp [predict, hb, herr]
  exact ⟨h1, by rw [h1]; rfl, by rw [h1]; rfl, by rw [h1]; rfl⟩

/-- C1 witness: a predictor whose forward pass raises out-of-memory still
returns the error-flagged result on a concrete non-blank input. -/
theorem claim_C1_witness :
    predict failingPredictor "무서워" = errorResult "RuntimeError: CUDA out of memory" :=
  (claim_C1_error_recovery failingPredictor "무서워" _ (by decide) rfl).1

/-- C2: for every input that is empty or whitespace-only, `predict`
returns the sentinel result (label `'분석불가'`, confidence `0.0`,
band `'없음'`) without invoking the model (the result is the same for
every predictor, whatever its forward pass) and without raising. -/
theorem claim_C2_blank_sentinel (P : Predictor) (text : String)
    (h : isBlank text = true) :
    predict P text = sentinelResult ∧
    (predict P text).pattern = "분석불가" ∧
    (predict P text).confidence = 0 ∧
    (predict P text).confidence_level = "없음" ∧
    ∀ Q : Predictor, predict Q text = predict P text := by
  have h1 : ∀ Q : Predictor, predict Q text = sentinelResult := fun Q => by
    simp [predict, h]
  exact ⟨h1 P, by rw [h1 P]; rfl, by rw [h1 P]; rfl, by rw [h1 P]; rfl,
    fun Q => by rw [h1 Q, h1 P]⟩

/-- C2 witness: `predict("")` and `predict("   ")` both yield the
sentinel. -/
theorem claim_C2_witness :
    predict demoPredictor "" = sentinelResult ∧
    predict demoPredictor "   " = sentinelResult :=
  ⟨(claim_C2_blank_sentinel demoPredictor "" (by decide)).1,
   (claim_C2_blank_sentinel demoPredictor "   " (by decide)).1⟩

/-- C3: the confidence-band derivation is boundary-exact with fixed
thresholds: `c ≥ 0.90` gives `'매우 높음'`, `0.70 ≤ c < 0.90` gives
`'높음'`, `0.50 ≤ c < 0.70` gives `'보통'`, `c < 0.50` gives `'낮음'`;
in particular the exact boundaries `0.90`, `0.70`, `0.50` fall in the
upper band. -/
theorem claim_C3_confidence_bands (c : ℚ) :
    (9/10 ≤ c → get_confidence_level c = "매우 높음") ∧
    (7/10 ≤ c → c < 9/10 → get_confidence_level c = "높음") ∧
    (1/2 ≤ c → c < 7/10 → get_confidence_level c = "보통") ∧
    (c < 1/2 → get_confidence_level c = "낮음") ∧
    get_confidence_level (9/10) = "매우 높음" ∧
    get_confidence_level (7/10) = "높음" ∧
    get_confidence_level (1/2) = "보통" := by
  unfold get_confidence_level
  refine ⟨?_, ?_, ?_, ?_, by norm_num, by norm_num, by norm_num⟩ <;>
    intros <;> split_ifs <;> first | rfl | linarith

/-- C3 witness: the bands evaluated on concrete confidences around the
boundaries. -/
theorem claim_C3_witness :
    get_confidence_level (9/10) = "매우 높음" ∧
    get_confidence_level (8999/10000) = "높음" ∧
    get_confidence_level (6999/10000) = "보통" ∧
    get_confidence_level (4999/10000) = "낮음" :=
  ⟨(claim_C3_confidence_bands (9/10)).1 (by norm_num),
   (claim_C3_confidence_bands (8999/10000)).2.1 (by norm_num) (by norm_num),
   (claim_C3_confidence_bands (6999/10000)).2.2.1 (by norm_num) (by norm_num),
   (claim_C3_confidence_bands (4999/10000)).2.2.2.1 (by norm_num)⟩

/-- C8: `predict_batch` returns exactly one result per input, in input
order, and the i-th result is the result of calling `predict` on the
i-th text alone — there is no cross-element interaction. -/
theorem claim_C8_batch_pointwise (P : Predictor) (texts : List String) :
    (predict_batch P texts).length = texts.length ∧
    ∀ i : Nat, (predict_batch P texts)[i]? = (texts[i]?).map (predict P) :=
  ⟨by simp [predict_batch], fun i => by simp [predict_batch, List.getElem?_map]⟩

/-! ### Supporting lemmas for the successful-inference path -/

theorem softmax_length (e : ℚ → ℚ) (l : List ℚ) : (softmax e l).length = l.length := by
  simp [softmax]

theorem sum_map_div (es : List ℚ) (s : ℚ) :
    (es.map (fun x => x / s)).sum = es.sum / s := by
  induction es with
  | nil => simp
  | cons x xs ih => simp [ih, add_div]

theorem sum_exp_pos (e : ℚ → ℚ) (l : List ℚ) (hl : l ≠ []) (he : ∀ x, 0 < e x) :
    0 < (l.map e).sum := by
  apply List.sum_pos
  · intro x hx
    obtain ⟨y, _, rfl⟩ := List.mem_map.mp hx
    exact he y
  · simp [hl]

/-- A softmax row over a positive exponential sums to exactly 1. -/
theorem softmax_sum (e : ℚ → ℚ) (l : List ℚ) (hl : l ≠ []) (he : ∀ x, 0 < e x) :
    (softmax e l).sum = 1 := by
  have hs := sum_exp_pos e l hl he
  unfold softmax
  rw [sum_map_div]
  exact div_self (ne_of_gt hs)

/-- Every softmax entry lies in `[0, 1]`. -/
theorem softmax_mem_bounds (e : ℚ → ℚ) (l : List ℚ) (hl : l ≠ []) (he : ∀ x, 0 < e x) :
    ∀ p ∈ softmax e l, 0 ≤ p ∧ p ≤ 1 := by
  have hs := sum_exp_pos e l hl he
  intro p hp
  unfold softmax at hp
  simp only [List.map_map, List.mem_map, Function.comp] at hp
  obtain ⟨y, hy, rfl⟩ := hp
  refine ⟨div_nonneg (le_of_lt (he y)) (le_of_lt hs), ?_⟩
  rw [div_le_one hs]
  exact List.single_le_sum
    (fun z hz => by obtain ⟨w, _, rfl⟩ := List.mem_map.mp hz; exact le_of_lt (he w)) _
    (List.mem_map.mpr ⟨y, hy, rfl⟩)

/-- Invariant of the `np.argmax` scan: the final best pair either is the
initial one or indexes into the scanned tail, its value bounds the
initial value, and it bounds every scanned entry. -/
theorem argmaxAux_spec :
    ∀ (xs : List ℚ) (i bi : Nat) (bv : ℚ),
      ((argmaxAux xs i (bi, bv)).1 = bi ∧ (argmaxAux xs i (bi, bv)).2 = bv ∨
        ∃ j, j < xs.length ∧ (argmaxAux xs i (bi, bv)).1 = i + j ∧
          xs.getD j 0 = (argmaxAux xs i (bi, bv)).2) ∧
      bv ≤ (argmaxAux xs i (bi, bv)).2 ∧
      ∀ y ∈ xs, y ≤ (argmaxAux xs i (bi, bv)).2 := by
  intro xs
  induction xs with
  | nil => intro i bi bv; exact ⟨Or.inl ⟨rfl, rfl⟩, le_refl _, by simp⟩
  | cons x xs ih =>
    intro i bi bv
    show (_ ∧ _ ∧ _)
    by_cases hc : bv < x
    · have harg : argmaxAux (x :: xs) i (bi, bv) = argmaxAux xs (i + 1) (i, x) := by
        simp [argmaxAux, hc]
      rw [harg]
      obtain ⟨ha, hb, hcc⟩ := ih (i + 1) i x
      refine ⟨?_, le_trans (le_of_lt hc) hb, ?_⟩
      · rcases ha with ⟨h1, h2⟩ | ⟨j, hj, h1, h2⟩
        · exact Or.inr ⟨0, by simp, by omega, by simp [h2]⟩
        · exact Or.inr ⟨j + 1, by simp; omega, by omega, by simpa using h2⟩
      · intro y hy
        rcases List.mem_cons.mp hy with rfl | hy'
        · exact hb
        · exact hcc y hy'
    · have harg : argmaxAux (x :: xs) i (bi, bv) = argmaxAux xs (i + 1) (bi, bv) := by
        simp [argmaxAux, hc]
      rw [harg]
      obtain ⟨ha, hb, hcc⟩ := ih (i + 1) bi bv
      refine ⟨?_, hb, ?_⟩
      · rcases ha with ⟨h1, h2⟩ | ⟨j, hj, h1, h2⟩
        · exact Or.inl ⟨h1, h2⟩
        · exact Or.inr ⟨j + 1, by simp; omega, by omega, by simpa using h2⟩
      · intro y hy
        rcases List.mem_cons.mp hy with rfl | hy'
        · exact le_trans (not_lt.mp hc) hb
        · exact hcc y hy'

/-- The argmax index is in range for a nonempty row. -/
theorem argmaxIdx_lt (l : List ℚ) (h : l ≠ []) : argmaxIdx l < l.length := by
  match l with
  | x :: xs =>
    show (argmaxAux xs 1 (0, x)).1 < xs.length + 1
    obtain ⟨ha, _, _⟩ := argmaxAux_spec xs 1 0 x
    rcases ha with ⟨h1, _⟩ | ⟨j, hj, h1, _⟩ <;> omega

/-- The entry at the argmax index dominates every entry of the row. -/
theorem argmaxIdx_max (l : List ℚ) (h : l ≠ []) :
    ∀ y ∈ l, y ≤ l.getD (argmaxIdx l) 0 := by
  match l with
  | x :: xs =>
    obtain ⟨ha, hb, hcc⟩ := argmaxAux_spec xs 1 0 x
    have hget : (x :: xs).getD (argmaxIdx (x :: xs)) 0 = (argmaxAux xs 1 (0, x)).2 := by
      show (x :: xs).getD (argmaxAux xs 1 (0, x)).1 0 = _
      rcases ha with ⟨h1, h2⟩ | ⟨j, hj, h1, h2⟩
      · rw [h1, h2]; rfl
      · rw [h1]
        have hstep : (x :: xs).getD (1 + j) 0 = xs.getD j 0 := by
          rw [Nat.add_comm]; rfl
        rw [hstep, h2]
    rw [hget]
    intro y hy
    rcases List.mem_cons.mp hy with rfl | hy'
    · exact hb
    · exact hcc y hy'

/-- Inserting a fresh key appends the binding. -/
theorem dictInsert_fresh {k : String} {v : ℚ} :
    ∀ (acc : List (String × ℚ)), k ∉ acc.map Prod.fst →
      dictInsert acc k v = acc ++ [(k, v)] := by
  intro acc
  induction acc with
  | nil => intro _; rfl
  | cons p t ih =>
    intro h
    simp only [List.map_cons, List.mem_cons, not_or] at h
    cases p with
    | mk a b =>
      show dictInsert ((a, b) :: t) k v = _
      rw [show dictInsert ((a, b) :: t) k v
          = if a = k then (a, v) :: t else (a, b) :: dictInsert t k v from rfl]
      rw [if_neg (fun hh => h.1 hh.symm), ih h.2]
      rfl

/-- Building a dict from pairwise-distinct fresh keys keeps every pair
in order. -/
theorem foldl_dictInsert_fresh :
    ∀ (kvs acc : List (String × ℚ)),
      (kvs.map Prod.fst).Nodup →
      (∀ k ∈ kvs.map Prod.fst, k ∉ acc.map Prod.fst) →
      kvs.foldl (fun a kv => dictInsert a kv.1 kv.2) acc = acc ++ kvs := by
  intro kvs
  induction kvs with
  | nil => intro acc _ _; simp
  | cons kv t ih =>
    intro acc hnd hdisj
    simp only [List.map_cons, List.nodup_cons] at hnd
    simp only [List.foldl_cons]
    have hfresh : kv.1 ∉ acc.map Prod.fst := hdisj kv.1 (by simp)
    rw [show dictInsert acc kv.1 kv.2 = acc ++ [(kv.1, kv.2)] from dictInsert_fresh acc hfresh]
    rw [ih (acc ++ [(kv.1, kv.2)]) hnd.2 ?disj]
    · simp
    case disj =>
      intro k hk
      simp only [List.map_append, List.mem_append, List.map_cons, List.map_nil,
        List.mem_singleton, not_or]
      refine ⟨fun hc => hdisj k (by simp [hk]) hc, fun hc => ?_⟩
      subst hc
      exact hnd.1 hk

/-- When every class index resolves and the resolved labels are pairwise
distinct, the dict comprehension returns one entry per probability, keyed
by the mapped label, in index order. -/
theorem buildAllProbs_ok (i2l : List (Nat × String)) (probs : List ℚ)
    (hlook : ∀ i < probs.length, (alookup i2l i).isSome)
    (hnd : ((List.range probs.length).map (labelAt i2l)).Nodup) :
    buildAllProbs i2l probs =
      .ok (probs.enum.map (fun p => (labelAt i2l p.1, p.2))) := by
  have general : ∀ (pairs : List (Nat × ℚ)) (acc : List (String × ℚ)),
      (∀ p ∈ pairs, (alookup i2l p.1).isSome) →
      pairs.foldlM
        (fun acc p =>
          match alookup i2l p.1 with
          | some lab => Except.ok (dictInsert acc lab p.2)
          | none => Except.error (toString p.1))
        acc =
      Except.ok ((pairs.map (fun p => (labelAt i2l p.1, p.2))).foldl
        (fun a kv => dictInsert a kv.1 kv.2) acc) := by
    intro pairs
    induction pairs with
    | nil => intro acc _; rfl
    | cons p t ih =>
      intro acc hl
      obtain ⟨lab, hlab⟩ := Option.isSome_iff_exists.mp (hl p (by simp))
      have hlabAt : labelAt i2l p.1 = lab := by simp [labelAt, hlab]
      simp only [List.foldlM_cons, hlab, List.map_cons, List.foldl_cons, hlabAt]
      exact ih (dictInsert acc lab p.2) (fun q hq => hl q (by simp [hq]))
  unfold buildAllProbs
  rw [general probs.enum [] (fun p hp => hlook p.1 (List.fst_lt_of_mem_enum hp))]
  rw [foldl_dictInsert_fresh _ [] ?nd (by simp)]
  · simp
  case nd =>
    have hkeys : (probs.enum.map (fun p => (labelAt i2l p.1, p.2))).map Prod.fst
        = (List.range probs.length).map (labelAt i2l) := by
      rw [List.map_map]
      have hcomp : (Prod.fst ∘ fun p : Nat × ℚ => (labelAt i2l p.1, p.2))
          = (labelAt i2l) ∘ Prod.fst := rfl
      rw [hcomp, ← List.map_map, List.enum_map_fst]
    rw [hkeys]
    exact hnd

theorem ebind_ok {α β : Type} (a : α) (f : α → Except String β) :
    (Except.ok a : Except String α) >>= f = f a := rfl

/-- Evaluation of the `try` block on the success path. -/
theorem predictCore_eq (P : Predictor) (text : String) (logits : List ℚ) (pat : String)
    (allP : List (String × ℚ))
    (hf : P.forward text = .ok logits)
    (hne : softmax P.exp logits ≠ [])
    (hpat : alookup P.id_to_label (argmaxIdx (softmax P.exp logits)) = some pat)
    (hbuild : buildAllProbs P.id_to_label (softmax P.exp logits) = .ok allP) :
    predictCore P text =
      .ok { pattern := pat
            confidence := round3 ((softmax P.exp logits).getD (argmaxIdx (softmax P.exp logits)) 0)
            confidence_level :=
              get_confidence_level ((softmax P.exp logits).getD (argmaxIdx (softmax P.exp logits)) 0)
            description := get_pattern_description pat
            all_probabilities := allP } := by
  unfold predictCore
  rw [hf, ebind_ok]
  simp only [hne, if_neg, ite_false, reduceIte, hpat, ebind_ok, hbuild]
  rfl

theorem allProbs_keys (i2l : List (Nat × String)) (probs : List ℚ) :
    (probs.enum.map (fun p => (labelAt i2l p.1, p.2))).map Prod.fst
      = (List.range probs.length).map (labelAt i2l) := by
  rw [List.map_map]
  have h : (Prod.fst ∘ fun p : Nat × ℚ => (labelAt i2l p.1, p.2))
      = (labelAt i2l) ∘ Prod.fst := rfl
  rw [h, ← List.map_map, List.enum_map_fst]

theorem allProbs_vals (i2l : List (Nat × String)) (probs : List ℚ) :
    (probs.enum.map (fun p => (labelAt i2l p.1, p.2))).map Prod.snd = probs := by
  rw [List.map_map]
  have h : (Prod.snd ∘ fun p : Nat × ℚ => (labelAt i2l p.1, p.2)) = Prod.snd := rfl
  rw [h, List.enum_map_snd]

/-- Dict lookup finds the binding when keys are pairwise distinct. -/
theorem alookup_of_nodup_mem {β : Type} :
    ∀ (l : List (String × β)) (k : String) (v : β),
      (l.map Prod.fst).Nodup → (k, v) ∈ l → alookup l k = some v := by
  intro l
  induction l with
  | nil => intro k v _ hm; simp at hm
  | cons p t ih =>
    intro k v hnd hm
    simp only [List.map_cons, List.nodup_cons] at hnd
    rcases List.mem_cons.mp hm with heq | hmt
    · cases heq
      show alookup ((k, v) :: t) k = some v
      simp [alookup]
    · cases p with
      | mk a b =>
        show alookup ((a, b) :: t) k = some v
        have hka : a ≠ k := by
          rintro rfl
          exact hnd.1 (List.mem_map.mpr ⟨(a, v), hmt, rfl⟩)
        simp only [alookup, if_neg hka]
        exact ih k v hnd.2 hmt

/-- Full evaluation of `predict` on the success path: non-blank text,
forward pass succeeding with a nonempty logits row, every class index
present in the mapping with pairwise-distinct labels. -/
theorem predict_success (P : Predictor) (text : String) (logits : List ℚ)
    (hb : isBlank text = false)
    (hf : P.forward text = .ok logits)
    (hne : logits ≠ [])
    (hlook : ∀ i < logits.length, (alookup P.id_to_label i).isSome)
    (hnd : ((List.range logits.length).map (labelAt P.id_to_label)).Nodup) :
    predict P text =
      { pattern := labelAt P.id_to_label (argmaxIdx (softmax P.exp logits))
        confidence := round3 ((softmax P.exp logits).getD (argmaxIdx (softmax P.exp logits)) 0)
        confidence_level :=
          get_confidence_level ((softmax P.exp logits).getD (argmaxIdx (softmax P.exp logits)) 0)
        description := get_pattern_description (labelAt P.id_to_label (argmaxIdx (softmax P.exp logits)))
        all_probabilities :=
          (softmax P.exp logits).enum.map (fun p => (labelAt P.id_to_label p.1, p.2)) } := by
  have hplen : (softmax P.exp logits).length = logits.length := softmax_length _ _
  have hpne : softmax P.exp logits ≠ [] := by
    intro hc
    exact hne (List.length_eq_zero.mp (by rw [← hplen, hc]; rfl))
  have hcid : argmaxIdx (softmax P.exp logits) < logits.length := by
    rw [← hplen]; exact argmaxIdx_lt _ hpne
  obtain ⟨pat, hpat⟩ := Option.isSome_iff_exists.mp (hlook _ hcid)
  have hpatAt : labelAt P.id_to_label (argmaxIdx (softmax P.exp logits)) = pat := by
    simp [labelAt, hpat]
  have hbuild := buildAllProbs_ok P.id_to_label (softmax P.exp logits)
    (by rw [hplen]; exact hlook) (by rw [hplen]; exact hnd)
  rw [hpatAt]
  unfold predict
  rw [if_neg (by simp [hb])]
  rw [predictCore_eq P text logits pat _ hf hpne hpat hbuild]

/-- C4: for every non-blank input on which inference succeeds (forward
pass returns a logits row of length `num_labels`, every class index is
mapped to a label, labels pairwise distinct, exponential positive), the
returned `all_probabilities` has exactly `num_labels` entries, its i-th
key is the label the `LabelMapping` assigns to index i (never a raw
integer index), every probability lies in `[0, 1]`, and the probabilities
sum to exactly 1. -/
theorem claim_C4_probability_simplex (P : Predictor) (text : String) (logits : List ℚ)
    (hb : isBlank text = false)
    (hf : P.forward text = .ok logits)
    (hne : logits ≠ [])
    (hlen : logits.length = P.num_labels)
    (hlook : ∀ i < P.num_labels, (alookup P.id_to_label i).isSome)
    (hnd : ((List.range P.num_labels).map (labelAt P.id_to_label)).Nodup)
    (hexp : ∀ x, 0 < P.exp x) :
    (predict P text).all_probabilities.length = P.num_labels ∧
    (predict P text).all_probabilities.map Prod.fst
      = (List.range P.num_labels).map (labelAt P.id_to_label) ∧
    (∀ kv ∈ (predict P text).all_probabilities, 0 ≤ kv.2 ∧ kv.2 ≤ 1) ∧
    ((predict P text).all_probabilities.map Prod.snd).sum = 1 := by
  rw [← hlen] at hlook hnd ⊢
  rw [predict_success P text logits hb hf hne hlook hnd]
  have hplen : (softmax P.exp logits).length = logits.length := softmax_length _ _
  refine ⟨by simp [hplen], ?_, ?_, ?_⟩
  · rw [allProbs_keys, hplen]
  · intro kv hkv
    have hv : kv.2 ∈ ((softmax P.exp logits).enum.map
        (fun p => (labelAt P.id_to_label p.1, p.2))).map Prod.snd :=
      List.mem_map_of_mem Prod.snd hkv
    rw [allProbs_vals] at hv
    exact softmax_mem_bounds P.exp logits hne hexp kv.2 hv
  · rw [allProbs_vals]
    exact softmax_sum P.exp logits hne hexp

/-- C4 witness: the two-label demo predictor on a concrete input. -/
theorem claim_C4_witness :
    (predict demoPredictor "무서워").all_probabilities.length = demoPredictor.num_labels ∧
    (predict demoPredictor "무서워").all_probabilities.map Prod.fst
      = (List.range demoPredictor.num_labels).map (labelAt demoPredictor.id_to_label) ∧
    (∀ kv ∈ (predict demoPredictor "무서워").all_probabilities, 0 ≤ kv.2 ∧ kv.2 ≤ 1) ∧
    ((predict demoPredictor "무서워").all_probabilities.map Prod.snd).sum = 1 :=
  claim_C4_probability_simplex demoPredictor "무서워" [0, 1] (by decide) rfl (by simp) rfl
    (by decide) (by decide) (fun x => by show 0 < x ^ 2 + 1; positivity)

/-- C5 (amended): for every non-blank input on which inference succeeds
(same success hypotheses), the reported `pattern` is a key of
`all_probabilities` whose probability dominates every entry of the map —
the reported label is a maximum-probability class. (As stated over all
inputs the claim fails: see the counterexample on empty input.) -/
theorem claim_C5_amended_argmax (P : Predictor) (text : String) (logits : List ℚ)
    (hb : isBlank text = false)
    (hf : P.forward text = .ok logits)
    (hne : logits ≠ [])
    (hlook : ∀ i < logits.length, (alookup P.id_to_label i).isSome)
    (hnd : ((List.range logits.length).map (labelAt P.id_to_label)).Nodup) :
    ∃ m : ℚ,
      alookup (predict P text).all_probabilities (predict P text).pattern = some m ∧
      ∀ kv ∈ (predict P text).all_probabilities, kv.2 ≤ m := by
  rw [predict_success P text logits hb hf hne hlook hnd]
  dsimp only
  have hplen : (softmax P.exp logits).length = logits.length := softmax_length _ _
  have hpne : softmax P.exp logits ≠ [] := by
    intro hc
    exact hne (List.length_eq_zero.mp (by rw [← hplen, hc]; rfl))
  set probs := softmax P.exp logits with hprobs
  set cid := argmaxIdx probs with hcid
  have hcidlt : cid < probs.length := argmaxIdx_lt probs hpne
  refine ⟨probs.getD cid 0, ?_, ?_⟩
  · apply alookup_of_nodup_mem
    · rw [allProbs_keys, hplen]
      exact hnd
    · have hlen2 : cid < (probs.enum.map
          (fun p => (labelAt P.id_to_label p.1, p.2))).length := by
        simpa using hcidlt
      have hcell : (probs.enum.map (fun p => (labelAt P.id_to_label p.1, p.2))).get
            ⟨cid, hlen2⟩
          = (labelAt P.id_to_label cid, probs.getD cid 0) := by
        rw [List.get_eq_getElem, List.getElem_map, List.getElem_enum]
        congr 1
        exact (List.getD_eq_getElem probs 0 hcidlt).symm
      rw [← hcell]
      exact List.get_mem _ _ hlen2
  · intro kv hkv
    have hv : kv.2 ∈ (probs.enum.map
        (fun p => (labelAt P.id_to_label p.1, p.2))).map Prod.snd :=
      List.mem_map_of_mem Prod.snd hkv
    rw [allProbs_vals] at hv
    exact argmaxIdx_max probs hpne kv.2 hv

/-- C5 counterexample: on the empty input the claim as stated is false —
`all_probabilities` is empty, so the predicted label `'분석불가'` is not
the arg-max of the returned probability map (it is not even a key of
it). -/
theorem claim_C5_counterexample :
    (predict demoPredictor "").pattern = "분석불가" ∧
    (predict demoPredictor "").all_probabilities = [] ∧
    ¬ ∃ m : ℚ, alookup (predict demoPredictor "").all_probabilities
        (predict demoPredictor "").pattern = some m := by
  have h : predict demoPredictor "" = sentinelResult := by decide
  rw [h]
  exact ⟨rfl, rfl, by simp [sentinelResult, alookup]⟩

/-- C5 witness: the amended arg-max property on a concrete successful
prediction. -/
theorem claim_C5_witness :
    ∃ m : ℚ,
      alookup (predict demoPredictor "무서워").all_probabilities
        (predict demoPredictor "무서워").pattern = some m ∧
      ∀ kv ∈ (predict demoPredictor "무서워").all_probabilities, kv.2 ≤ m :=
  claim_C5_amended_argmax demoPredictor "무서워" [0, 1] (by decide) rfl (by simp)
    (by decide) (by decide)

/-- C10: both degenerate results of the public interface — the sentinel
for blank input and the error-flagged result when inference raises —
carry an empty `all_probabilities` map and confidence `0.0`; the simplex
shape of C4 holds only for successful predictions. -/
theorem claim_C10_degenerate_results (P : Predictor) (text : String) :
    (isBlank text = true →
      (predict P text).all_probabilities = [] ∧ (predict P text).confidence = 0) ∧
    (∀ e, isBlank text = false → predictCore P text = .error e →
      (predict P text).all_probabilities = [] ∧ (predict P text).confidence = 0) := by
  constructor
  · intro h
    have h1 : predict P text = sentinelResult := by simp [predict, h]
    exact ⟨by rw [h1]; rfl, by rw [h1]; rfl⟩
  · intro e hb herr
    have h1 : predict P text = errorResult e := by simp [predict, hb, herr]
    exact ⟨by rw [h1]; rfl, by rw [h1]; rfl⟩

/-- C10 witness: concrete blank-input and failing-forward cases. -/
theorem claim_C10_witness :
    (predict demoPredictor "").all_probabilities = [] ∧
    (predict demoPredictor "").confidence = 0 ∧
    (predict failingPredictor "무서워").all_probabilities = [] ∧
    (predict failingPredictor "무서워").confidence = 0 := by
  obtain ⟨a, b⟩ := (claim_C10_degenerate_results demoPredictor "").1 (by decide)
  obtain ⟨c, d⟩ := (claim_C10_degenerate_results failingPredictor "무서워").2
    "RuntimeError: CUDA out of memory" (by decide) rfl
  exact ⟨a, b, c, d⟩


/-! ### Decimal representation round-trip (for the serialised id keys) -/

theorem toDigitsCore_eq_digits :
    ∀ (fuel n : Nat), n ≠ 0 → n < fuel → ∀ (ds : List Char),
      Nat.toDigitsCore 10 fuel n ds =
        ((Nat.digits 10 n).map Nat.digitChar).reverse ++ ds := by
  intro fuel
  induction fuel with
  | zero => intro n hn h; omega
  | succ f ih =>
    intro n hn h ds
    unfold Nat.toDigitsCore
    by_cases h10 : n / 10 = 0
    · rw [if_pos h10]
      have hd : Nat.digits 10 n = [n % 10] := by
        rw [Nat.digits_def' (by norm_num : (1:ℕ) < 10) (Nat.pos_of_ne_zero hn), h10]
        simp
      rw [hd]; simp
    · rw [if_neg h10]
      have hlt : n / 10 < f := by
        have := Nat.div_lt_self (Nat.pos_of_ne_zero hn) (by norm_num : 1 < 10)
        omega
      rw [ih (n / 10) h10 hlt]
      rw [Nat.digits_def' (by norm_num : (1:ℕ) < 10) (Nat.pos_of_ne_zero hn)]
      simp

theorem toDigits_eq_digits (n : Nat) (hn : n ≠ 0) :
    Nat.toDigits 10 n = ((Nat.digits 10 n).map Nat.digitChar).reverse := by
  rw [Nat.toDigits, toDigitsCore_eq_digits (n + 1) n hn (by omega), List.append_nil]

theorem digitChar_isDigit {d : Nat} (h : d < 10) : (Nat.digitChar d).isDigit = true := by
  interval_cases d <;> decide

theorem digitChar_toNat {d : Nat} (h : d < 10) : (Nat.digitChar d).toNat - '0'.toNat = d := by
  interval_cases d <;> decide

theorem foldl_digit_chars :
    ∀ (l : List Nat), (∀ d ∈ l, d < 10) → ∀ (a : Nat),
      List.foldl (fun n c => n * 10 + (c.toNat - '0'.toNat)) a ((l.map Nat.digitChar).reverse) =
        a * 10 ^ l.length + Nat.ofDigits 10 l := by
  intro l
  induction l with
  | nil => intro _ a; simp [Nat.ofDigits_nil]
  | cons d L ih =>
    intro h a
    have hd : d < 10 := h d (List.mem_cons_self d L)
    simp only [List.map_cons, List.reverse_cons, List.foldl_append, List.foldl_cons,
      List.foldl_nil]
    rw [ih (fun x hx => h x (List.mem_cons_of_mem d hx)) a, digitChar_toNat hd,
      Nat.ofDigits_cons]
    simp only [List.length_cons]
    ring

theorem toNat?_mk (cs : List Char) (h1 : cs ≠ []) (h2 : ∀ c ∈ cs, c.isDigit = true) :
    String.toNat? ⟨cs⟩ = some (cs.foldl (fun n c => n * 10 + (c.toNat - '0'.toNat)) 0) := by
  have hne : (⟨cs⟩ : String) ≠ "" := by
    intro hh
    exact h1 (congrArg String.data hh)
  have hempty : String.isEmpty ⟨cs⟩ = false := by
    rw [Bool.eq_false_iff]
    intro hh
    exact hne (String.isEmpty_iff _ |>.mp hh)
  have hall : String.all ⟨cs⟩ (·.isDigit) = true := (String.all_iff _ _).mpr h2
  rw [String.toNat?, if_pos (by rw [String.isNat, hempty, hall]; rfl), String.foldl_eq]

theorem toNat?_toString (n : Nat) : (toString n).toNat? = some n := by
  show (Nat.repr n).toNat? = some n
  rw [Nat.repr]
  by_cases hn : n = 0
  · subst hn
    have h0 : Nat.toDigits 10 0 = ['0'] := rfl
    rw [h0]
    rw [show (['0'].asString) = (⟨['0']⟩ : String) from rfl]
    rw [toNat?_mk ['0'] (by simp) (by decide)]
    decide
  · rw [toDigits_eq_digits n hn]
    have hne : ((Nat.digits 10 n).map Nat.digitChar).reverse ≠ [] := by
      simp [Nat.digits_ne_nil_iff_ne_zero.mpr hn]
    have hdig : ∀ c ∈ ((Nat.digits 10 n).map Nat.digitChar).reverse, c.isDigit = true := by
      intro c hc
      rw [List.mem_reverse, List.mem_map] at hc
      obtain ⟨d, hd, rfl⟩ := hc
      exact digitChar_isDigit (Nat.digits_lt_base (by norm_num) hd)
    rw [show (((Nat.digits 10 n).map Nat.digitChar).reverse.asString)
          = (⟨((Nat.digits 10 n).map Nat.digitChar).reverse⟩ : String) from rfl]
    rw [toNat?_mk _ hne hdig]
    have := foldl_digit_chars (Nat.digits 10 n)
      (fun d hd => Nat.digits_lt_base (by norm_num) hd) 0
    rw [this]
    simp [Nat.ofDigits_digits]

/-! ### Training-side supporting lemmas -/

theorem charListLe_total : ∀ (a b : List Char),
    charListLe a b = true ∨ charListLe b a = true := by
  intro a
  induction a with
  | nil => intro b; left; rfl
  | cons x xs ih =>
    intro b
    cases b with
    | nil => right; rfl
    | cons y ys =>
      by_cases hxy : x = y
      · subst hxy
        rcases ih ys with h | h
        · left; simpa [charListLe] using h
        · right; simpa [charListLe] using h
      · rcases Ne.lt_or_lt hxy with h | h
        · left; simp [charListLe, hxy, h]
        · right; simp [charListLe, Ne.symm hxy, h]

theorem charListLe_trans : ∀ (a b c : List Char),
    charListLe a b = true → charListLe b c = true → charListLe a c = true := by
  intro a
  induction a with
  | nil => intro b c _ _; rfl
  | cons x xs ih =>
    intro b c h1 h2
    cases b with
    | nil => simp [charListLe] at h1
    | cons y ys =>
      cases c with
      | nil => simp [charListLe] at h2
      | cons z zs =>
        by_cases hxy : x = y <;> by_cases hyz : y = z
        · subst hxy; subst hyz
          simp only [charListLe, if_pos rfl] at h1 h2 ⊢
          exact ih ys zs h1 h2
        · subst hxy
          simp only [charListLe, if_pos rfl, if_neg hyz] at h1 h2 ⊢
          exact h2
        · subst hyz
          simp only [charListLe, if_neg hxy] at h1 ⊢
          exact h1
        · simp only [charListLe, if_neg hxy, if_neg hyz, decide_eq_true_iff] at h1 h2
          have hxz : x < z := lt_trans h1 h2
          simp [charListLe, ne_of_lt hxz, hxz]

instance : IsTotal String (fun a b => strLe a b = true) :=
  ⟨fun a b => charListLe_total a.data b.data⟩

instance : IsTrans String (fun a b => strLe a b = true) :=
  ⟨fun a b c => charListLe_trans a.data b.data c.data⟩

theorem classes_sorted (rows : List RawRecord) :
    List.Sorted (fun a b => strLe a b = true) (classes rows) :=
  List.sorted_insertionSort _ _

theorem classes_nodup (rows : List RawRecord) : (classes rows).Nodup :=
  ((List.perm_insertionSort _ _).nodup_iff).mpr (List.nodup_dedup _)

theorem classes_toFinset (rows : List RawRecord) :
    (classes rows).toFinset = ((preprocessedRows rows).map Prod.snd).toFinset := by
  ext a
  simp [classes, List.mem_toFinset, List.mem_dedup]

theorem load_save_id2l (i2l : List (Nat × String)) :
    (i2l.map (fun p => (toString p.1, p.2))).mapM
      (fun p : String × String =>
        match p.1.toNat? with
        | some k => Except.ok (k, p.2)
        | none => Except.error ("invalid literal for int() with base 10: " ++ p.1))
      = Except.ok i2l := by
  induction i2l with
  | nil => rfl
  | cons p t ih =>
    simp only [List.map_cons, List.mapM_cons, toNat?_toString, ih]
    rfl

theorem load_save (l2i : List (String × Nat)) (i2l : List (Nat × String)) :
    load_model_info (some (save_model_info l2i i2l)) =
      .ok { id_to_label := i2l, label_to_id := l2i, num_labels := l2i.length } := by
  simp only [load_model_info, save_model_info, load_save_id2l]
  rfl

theorem mapM_parse_ok :
    ∀ (l : List (String × String)), (∀ p ∈ l, (p.1.toNat?).isSome) →
      ∃ l' : List (Nat × String),
        l.mapM (fun p : String × String =>
          match p.1.toNat? with
          | some k => Except.ok (k, p.2)
          | none => Except.error ("invalid literal for int() with base 10: " ++ p.1))
          = Except.ok l' ∧
        l'.length = l.length := by
  intro l
  induction l with
  | nil => intro _; exact ⟨[], rfl, rfl⟩
  | cons p t ih =>
    intro h
    obtain ⟨k, hk⟩ := Option.isSome_iff_exists.mp (h p (by simp))
    obtain ⟨t', ht', hlen⟩ := ih (fun q hq => h q (by simp [hq]))
    refine ⟨(k, p.2) :: t', ?_, by simp [hlen]⟩
    simp only [List.mapM_cons, hk, ht']
    rfl

/-- C6 counterexample: the claim as stated is false on the code — with
`num_labels = 3` in the metadata but only 2 entries in `id_to_label`,
`_load_model_info` succeeds and returns the truncated maps verbatim;
initialization does not fail (there is no ModelLoadError anywhere in the
loader). -/
theorem claim_C6_counterexample :
    load_model_info (some mismatchedInfo) =
      .ok { id_to_label := [(0, "공포"), (1, "과신")]
            label_to_id := [("공포", 0), ("과신", 1)]
            num_labels := 3 } ∧
    mismatchedInfo.num_labels = 3 ∧
    mismatchedInfo.id_to_label.length = 2 := by
  refine ⟨?_, rfl, rfl⟩
  simp only [load_model_info, mismatchedInfo, List.mapM_cons, toNat?_toString, List.mapM_nil]
  rfl

/-- C6 (amended): the loader performs no cardinality validation at all.
For every present metadata file whose id keys parse as integers, loading
succeeds and copies `num_labels`, `label_to_id` and the (possibly
mismatched) `id_to_label` verbatim; the only load-time failures are a
missing file (`FileNotFoundError`) or a non-numeric id key (`int()`
raising). -/
theorem claim_C6_amended_no_validation (info : SavedModelInfo)
    (hkeys : ∀ p ∈ info.id_to_label, (p.1.toNat?).isSome) :
    ∃ r : LoadedInfo,
      load_model_info (some info) = .ok r ∧
      r.num_labels = info.num_labels ∧
      r.label_to_id = info.label_to_id ∧
      r.id_to_label.length = info.id_to_label.length := by
  obtain ⟨l', hl', hlen⟩ := mapM_parse_ok info.id_to_label hkeys
  refine ⟨⟨l', info.label_to_id, info.num_labels⟩, ?_, rfl, rfl, hlen⟩
  simp only [load_model_info, hl']
  rfl

/-- C6 witness: the amended no-validation theorem applied to the
concrete mismatched artifact. -/
theorem claim_C6_witness :
    ∃ r : LoadedInfo,
      load_model_info (some mismatchedInfo) = .ok r ∧
      r.num_labels = mismatchedInfo.num_labels ∧
      r.label_to_id = mismatchedInfo.label_to_id ∧
      r.id_to_label.length = mismatchedInfo.id_to_label.length :=
  claim_C6_amended_no_validation mismatchedInfo (by
    intro p hp
    simp only [mismatchedInfo, List.mem_cons, List.not_mem_nil, or_false] at hp
    rcases hp with rfl | rfl <;> simp [toNat?_toString])

/-- C7 counterexample: the claim as stated is false on the code — tag
normalisation removes every `'#'`, not only a leading marker. On a record
tagged `'공#포'`, the derived class list is `["공포"]`, whereas stripping
only a leading marker (the spec wording, `stripLeadingMarkerSpec`) leaves
`'공#포'` unchanged, which is not among the derived classes. -/
theorem claim_C7_counterexample :
    classes [hashTagRow] = ["공포"] ∧
    stripLeadingMarkerSpec "공#포" = "공#포" ∧
    ("공#포" : String) ∉ classes [hashTagRow] := by
  refine ⟨by decide, by decide, by decide⟩

/-- C7 (amended): records with missing or blank (empty after strip) text
or tag are dropped; tags are normalised by removing every occurrence of
the marker character `'#'` (not only a leading one); the class list is
the lexicographically sorted (by code points, `strLe`) duplicate-free
enumeration of the normalised tags, covering exactly the distinct
normalised tags; `label_to_id` assigns index `i` to the i-th sorted
class, and it is a bijection onto `[0, num_labels)`: its values are
exactly `range num_labels` and its keys are pairwise distinct. -/
theorem claim_C7_preprocessing_amended (rows : List RawRecord) :
    (∀ m t : String, (m, t) ∈ keptRows rows ↔
      (∃ r ∈ rows, r.memo = some m ∧ r.tag = some t ∧ ¬ isBlank m ∧ ¬ isBlank t)) ∧
    (∀ mt ∈ preprocessedRows rows, ∃ t0 : String, (mt.1, t0) ∈ keptRows rows ∧
      (mt.2).data = t0.data.filter (fun c => c ≠ '#')) ∧
    List.Sorted (fun a b => strLe a b = true) (classes rows) ∧
    (classes rows).Nodup ∧
    (classes rows).toFinset = ((preprocessedRows rows).map Prod.snd).toFinset ∧
    (∀ i (h : i < (classes rows).length),
      alookup (label_to_id rows) ((classes rows).get ⟨i, h⟩) = some i) ∧
    (label_to_id rows).map Prod.snd = List.range (classes rows).length ∧
    ((label_to_id rows).map Prod.fst).Nodup := by
  have hkeys : (label_to_id rows).map Prod.fst = classes rows := by
    unfold label_to_id
    rw [List.map_map]
    have hcomp : (Prod.fst ∘ fun p : Nat × String => (p.2, p.1)) = Prod.snd := rfl
    rw [hcomp, List.enum_map_snd]
  refine ⟨?_, ?_, classes_sorted rows, classes_nodup rows, classes_toFinset rows, ?_, ?_, ?_⟩
  · intro m t
    constructor
    · intro hm
      obtain ⟨r, hr, hfr⟩ := List.mem_filterMap.mp hm
      refine ⟨r, hr, ?_⟩
      rcases hmemo : r.memo with _ | m' <;> rcases htag : r.tag with _ | t' <;>
        simp only [hmemo, htag] at hfr
      · simp at hfr
      · simp at hfr
      · simp at hfr
      · by_cases hcond : ¬ isBlank m' = true ∧ ¬ isBlank t' = true
        · rw [if_pos hcond] at hfr
          simp only [Option.some.injEq, Prod.mk.injEq] at hfr
          obtain ⟨rfl, rfl⟩ := hfr
          exact ⟨rfl, rfl, hcond.1, hcond.2⟩
        · rw [if_neg hcond] at hfr
          simp at hfr
    · rintro ⟨r, hr, hm, ht, hbm, hbt⟩
      apply List.mem_filterMap.mpr
      refine ⟨r, hr, ?_⟩
      rw [hm, ht]
      simp [hbm, hbt]
  · intro mt hmt
    obtain ⟨p, hp, rfl⟩ := List.mem_map.mp hmt
    exact ⟨p.2, hp, rfl⟩
  · intro i h
    apply alookup_of_nodup_mem
    · rw [hkeys]; exact classes_nodup rows
    · have hlen : i < (classes rows).enum.length := by simpa using h
      have hcell : (label_to_id rows).get ⟨i, by simpa [label_to_id] using h⟩
          = ((classes rows).get ⟨i, h⟩, i) := by
        unfold label_to_id
        rw [List.get_eq_getElem, List.getElem_map, List.getElem_enum]
        rfl
      rw [← hcell]
      exact List.get_mem _ _ _
  · unfold label_to_id
    rw [List.map_map]
    have hcomp : (Prod.snd ∘ fun p : Nat × String => (p.2, p.1)) = Prod.fst := rfl
    rw [hcomp, List.enum_map_fst]
  · rw [hkeys]; exact classes_nodup rows

theorem label_to_id_keys (rows : List RawRecord) :
    (label_to_id rows).map Prod.fst = classes rows := by
  unfold label_to_id
  rw [List.map_map]
  have hcomp : (Prod.fst ∘ fun p : Nat × String => (p.2, p.1)) = Prod.snd := rfl
  rw [hcomp, List.enum_map_snd]

/-- C7 witness: on the concrete corpus, a well-formed record survives
the drops, and the first sorted class is assigned index 0. -/
theorem claim_C7_witness :
    ("코스피가 무서워서 전량 매도", "#공포") ∈ keptRows demoTrainingRows ∧
    alookup (label_to_id demoTrainingRows)
      ((classes demoTrainingRows).get
        ⟨0, (by decide : 0 < (classes demoTrainingRows).length)⟩) = some 0 :=
  ⟨((claim_C7_preprocessing_amended demoTrainingRows).1 "코스피가 무서워서 전량 매도" "#공포").mpr
      ⟨{ memo := some "코스피가 무서워서 전량 매도", tag := some "#공포" },
        by decide, rfl, rfl, by decide, by decide⟩,
   (claim_C7_preprocessing_amended demoTrainingRows).2.2.2.2.2.1 0 (by decide)⟩

/-- C9: round-trip of the label set — training on a corpus whose
distinct normalised tag set is `{A, B, C}` (three distinct labels)
produces a persisted mapping with `num_labels = 3`, and a predictor that
loads that artifact reports, through `get_model_info`, `num_labels = 3`
and exactly the label set `{A, B, C}` (as a set, regardless of the
enumeration order used internally), both via `id_to_label` and via
`label_to_id`. -/
theorem claim_C9_label_roundtrip (rows : List RawRecord) (A B C : String)
    (hset : ((preprocessedRows rows).map Prod.snd).toFinset = {A, B, C})
    (hcard : ({A, B, C} : Finset String).card = 3)
    (path device : String) (fwd : String → Except String (List ℚ)) (e : ℚ → ℚ) :
    ∃ info : LoadedInfo,
      load_model_info (some (save_model_info (label_to_id rows) (id_to_label rows)))
        = .ok info ∧
      (save_model_info (label_to_id rows) (id_to_label rows)).num_labels = 3 ∧
      (get_model_info (mkPredictor path device info fwd e)).num_labels = 3 ∧
      ((get_model_info (mkPredictor path device info fwd e)).id_to_label.map Prod.snd).toFinset
        = {A, B, C} ∧
      ((get_model_info (mkPredictor path device info fwd e)).label_to_id.map Prod.fst).toFinset
        = {A, B, C} := by
  have hlen3 : (classes rows).length = 3 := by
    have h1 : (classes rows).toFinset.card = (classes rows).length :=
      List.toFinset_card_of_nodup (classes_nodup rows)
    rw [classes_toFinset rows, hset, hcard] at h1
    omega
  have hl2i_len : (label_to_id rows).length = 3 := by
    unfold label_to_id
    simp [hlen3]
  refine ⟨⟨id_to_label rows, label_to_id rows, (label_to_id rows).length⟩,
    load_save (label_to_id rows) (id_to_label rows), hl2i_len, hl2i_len, ?_, ?_⟩
  · show ((id_to_label rows).map Prod.snd).toFinset = {A, B, C}
    unfold id_to_label
    rw [List.enum_map_snd, classes_toFinset rows, hset]
  · show ((label_to_id rows).map Prod.fst).toFinset = {A, B, C}
    rw [label_to_id_keys, classes_toFinset rows, hset]

/-- C9 witness: the round-trip on the concrete three-tag corpus. -/
theorem claim_C9_witness :
    ∃ info : LoadedInfo,
      load_model_info (some (save_model_info (label_to_id demoTrainingRows)
        (id_to_label demoTrainingRows))) = .ok info ∧
      (save_model_info (label_to_id demoTrainingRows) (id_to_label demoTrainingRows)).num_labels
        = 3 ∧
      (get_model_info (mkPredictor "./sentiment_model" "cpu" info demoForward demoExp)).num_labels
        = 3 ∧
      ((get_model_info (mkPredictor "./sentiment_model" "cpu" info demoForward
        demoExp)).id_to_label.map Prod.snd).toFinset = {"공포", "과신", "추격매수"} ∧
      ((get_model_info (mkPredictor "./sentiment_model" "cpu" info demoForward
        demoExp)).label_to_id.map Prod.fst).toFinset = {"공포", "과신", "추격매수"} :=
  claim_C9_label_roundtrip demoTrainingRows "공포" "과신" "추격매수" (by decide) (by decide)
    "./sentiment_model" "cpu" demoForward demoExp

end KBReflex
